import Mathlib

/-!
Verification of the debugging-guide notebook `Debugging_PyTorch.ipynb`.

The repository is a tutorial document whose single code cell calls the
external numerical library (an embedding-table lookup), and whose prose
describes further library behaviour: loss composition, optimizer weight
decay, device tags and the runtime errors the library raises.  The
library's code is not part of the repository, so the operations the
document relies on are modelled here from the spec's own description of
the external interface, and the document's claims are proved against
those models.
-/

/-- Modelled from the spec: a tensor of the external library, represented
by its shape and a flat row-major data list (the library's memory layout
for a dense tensor).  `data.length = shape.prod` for well-formed tensors. -/
structure Tensor (α : Type) where
  shape : List Nat
  data : List α
deriving DecidableEq, Repr

/-- Modelled from the spec: `nn.Embedding`, "construction of a lookup table
of fixed category count and feature width with optional reserved padding
index".  The table is `numEmbeddings` rows of `embeddingDim` features. -/
structure Embedding (α : Type) where
  numEmbeddings : Nat
  embeddingDim : Nat
  paddingIdx : Option Nat
  weight : List (List α)
deriving DecidableEq, Repr

/-- Modelled from the spec: constructing `nn.Embedding(num_embeddings,
embedding_dim, padding_idx)`.  "Gaussian-initialized entries": the entries
of the table "are initialized from N(0,1)"; the draw itself is
probabilistic, so it is represented by an abstract stream `gaussianSample`
of independent samples consumed in row-major order. -/
def mkEmbedding (α : Type) (numEmbeddings embeddingDim : Nat)
    (paddingIdx : Option Nat) (gaussianSample : Nat → α) : Embedding α :=
  { numEmbeddings := numEmbeddings
    embeddingDim := embeddingDim
    paddingIdx := paddingIdx
    weight := (List.range numEmbeddings).map (fun i =>
      (List.range embeddingDim).map (fun j =>
        gaussianSample (i * embeddingDim + j))) }

/-- Modelled from the spec: the embedding call, "a call that maps integer
category indices to their corresponding feature vectors, preserving input
shape with an appended feature dimension".  Every index must name a row of
the table; otherwise the library raises (modelled as `none`). -/
def Embedding.forward (e : Embedding α) (t : Tensor Nat) : Option (Tensor α) :=
  if t.data.all (fun i => i < e.numEmbeddings) then
    some { shape := t.shape ++ [e.embeddingDim]
           data := t.data.flatMap (fun i => e.weight.getD i []) }
  else
    none

/-- The feature row of an embedding output at flat position `p`: the `d`
features appended at that position of the input. -/
def Tensor.featRow (t : Tensor α) (d p : Nat) : List α :=
  (t.data.drop (p * d)).take d

/-- The notebook's example embedding: `nn.Embedding(num_embeddings=5,
embedding_dim=32)` (concrete sample stream chosen for evaluation). -/
def nbEmbedding : Embedding Nat := mkEmbedding Nat 5 32 none (fun k => k)

/-- The notebook's example input: `torch.LongTensor([[0, 4], [2, 3], [0, 1]])`,
shape `[3, 2]`, row-major data. -/
def nbInput : Tensor Nat := { shape := [3, 2], data := [0, 4, 2, 3, 0, 1] }

/-- The notebook's example output tensor `embed_vectors = embedding(input_tensor)`. -/
def nbOutput : Tensor Nat := (nbEmbedding.forward nbInput).getD { shape := [], data := [] }

lemma List.bind_row {α : Type} (f : Nat → List α) (d : Nat) :
    ∀ (l : List Nat), (∀ i ∈ l, (f i).length = d) →
      ∀ p, p < l.length → ((l.flatMap f).drop (p * d)).take d = f (l.getD p 0) := by
  intro l
  induction l with
  | nil => intro _ p hp; simp at hp
  | cons a l ih =>
      intro hd p hp
      cases p with
      | zero =>
          have ha : (f a).length = d := hd a (List.mem_cons_self a l)
          simp only [List.flatMap_cons, Nat.zero_mul, List.drop_zero, List.getD_cons_zero]
          rw [← ha]
          exact List.take_left (f a) (l.flatMap f)
      | succ p =>
          have ha : (f a).length = d := hd a (List.mem_cons_self a l)
          have hstep : ((a :: l).flatMap f).drop ((p + 1) * d)
              = (l.flatMap f).drop (p * d) := by
            have : (p + 1) * d = (f a).length + p * d := by
              rw [ha]; ring
            rw [this, List.flatMap_cons, List.drop_append]
          rw [hstep, List.getD_cons_succ]
          exact ih (fun i hi => hd i (List.mem_cons_of_mem a hi)) p
            (Nat.lt_of_succ_lt_succ hp)

/-- C1: every tensor of in-range integer category indices given to the
embedding call yields an output whose shape is the input shape with the
feature dimension `embeddingDim` appended. -/
theorem embedding_forward_shape {α : Type} (e : Embedding α) (t : Tensor Nat)
    (ht : ∀ i ∈ t.data, i < e.numEmbeddings) :
    ∃ out, e.forward t = some out ∧ out.shape = t.shape ++ [e.embeddingDim] := by
  refine ⟨{ shape := t.shape ++ [e.embeddingDim]
            data := t.data.flatMap (fun i => e.weight.getD i []) }, ?_, rfl⟩
  unfold Embedding.forward
  rw [if_pos]
  simpa using ht

/-- C1 witness: the notebook's input of shape `[3, 2]` given to the
embedding with `embedding_dim = 32` yields an output of shape `[3, 2, 32]`. -/
theorem embedding_forward_shape_witness :
    ∃ out, nbEmbedding.forward nbInput = some out ∧ out.shape = [3, 2, 32] :=
  embedding_forward_shape nbEmbedding nbInput (by decide)

/-- C2: the embedding call is a pure lookup into the table: at every flat
position of the input, the output's feature row is the table row selected
by the integer index there; hence positions holding equal indices receive
identical feature vectors. -/
theorem embedding_forward_lookup {α : Type} (e : Embedding α)
    (he : ∀ row ∈ e.weight, row.length = e.embeddingDim)
    (hlen : e.weight.length = e.numEmbeddings)
    (t : Tensor Nat) (out : Tensor α) (hout : e.forward t = some out)
    (p q : Nat) (hp : p < t.data.length) (hq : q < t.data.length) :
    out.featRow e.embeddingDim p = e.weight.getD (t.data.getD p 0) [] ∧
      (t.data.getD p 0 = t.data.getD q 0 →
        out.featRow e.embeddingDim p = out.featRow e.embeddingDim q) := by
  unfold Embedding.forward at hout
  by_cases hall : t.data.all (fun i => i < e.numEmbeddings) = true
  · rw [if_pos hall] at hout
    have hdata : out.data = t.data.flatMap (fun i => e.weight.getD i []) :=
      congrArg Tensor.data (Option.some.inj hout).symm
    have hrowlen : ∀ i ∈ t.data, (e.weight.getD i []).length = e.embeddingDim := by
      intro i hi
      have hilt : i < e.numEmbeddings := by
        simpa using List.all_eq_true.mp hall i hi
      have hlt : i < e.weight.length := hlen ▸ hilt
      rw [List.getD_eq_getElem _ _ hlt]
      exact he _ (List.getElem_mem hlt)
    have hmain : ∀ r, r < t.data.length →
        out.featRow e.embeddingDim r = e.weight.getD (t.data.getD r 0) [] := by
      intro r hr
      unfold Tensor.featRow
      rw [hdata]
      exact List.bind_row _ _ t.data hrowlen r hr
    exact ⟨hmain p hp, fun hpq => by rw [hmain p hp, hmain q hq, hpq]⟩
  · rw [if_neg hall] at hout
    cases hout

set_option maxRecDepth 4000 in
/-- C2 witness: in the notebook's example, index 0 occurs at flat positions
0 and 4 (nested positions `[0,0]` and `[2,0]`), the output row at position
0 is row 0 of the table, and both positions receive the same features. -/
theorem embedding_forward_lookup_witness :
    nbOutput.featRow 32 0 = nbEmbedding.weight.getD 0 [] ∧
      nbOutput.featRow 32 0 = nbOutput.featRow 32 4 := by
  have h := embedding_forward_lookup nbEmbedding (by decide) (by decide)
      nbInput nbOutput (by decide) 0 4 (by decide) (by decide)
  exact ⟨h.1, h.2 (by decide)⟩

/-- C8: the embedding lookup succeeds precisely when every input index lies
in `[0, num_embeddings)`; the notebook's example satisfies this (indices
0..4 against 5 rows), and an input holding the out-of-range index 5 makes
the lookup fail rather than return feature vectors. -/
theorem embedding_forward_range :
    (∀ (α : Type) (e : Embedding α) (t : Tensor Nat),
        (e.forward t).isSome = true ↔ ∀ i ∈ t.data, i < e.numEmbeddings) ∧
      (∀ i ∈ nbInput.data, i < nbEmbedding.numEmbeddings) ∧
      nbEmbedding.forward { shape := [1], data := [5] } = none := by
  refine ⟨?_, by decide, by decide⟩
  intro α e t
  constructor
  · intro h i hi
    unfold Embedding.forward at h
    by_cases hall : t.data.all (fun i => i < e.numEmbeddings) = true
    · simpa using List.all_eq_true.mp hall i hi
    · rw [if_neg hall] at h
      simp at h
  · intro h
    unfold Embedding.forward
    rw [if_pos (by simpa using h)]
    rfl

/-- C4: constructing an embedding with `num_embeddings = n` and
`embedding_dim = d` produces a lookup table of exactly `n` feature vectors
each of width `d`, keeps the optional reserved padding index, and fills
entry `(i, j)` with draw number `i*d + j` of the Gaussian N(0,1) sample
stream. -/
theorem mkEmbedding_spec (α : Type) (n d : Nat) (pad : Option Nat)
    (sample : Nat → α) :
    (mkEmbedding α n d pad sample).numEmbeddings = n ∧
      (mkEmbedding α n d pad sample).embeddingDim = d ∧
      (mkEmbedding α n d pad sample).paddingIdx = pad ∧
      (mkEmbedding α n d pad sample).weight.length = n ∧
      (∀ row ∈ (mkEmbedding α n d pad sample).weight, row.length = d) ∧
      (∀ i j, i < n → j < d →
        ∃ row, (mkEmbedding α n d pad sample).weight[i]? = some row ∧
          row[j]? = some (sample (i * d + j))) := by
  refine ⟨rfl, rfl, rfl, by simp [mkEmbedding], ?_, ?_⟩
  · intro row hrow
    simp only [mkEmbedding, List.mem_map] at hrow
    obtain ⟨i, _, rfl⟩ := hrow
    simp
  · intro i j hi hj
    refine ⟨(List.range d).map (fun j => sample (i * d + j)), ?_, ?_⟩
    · simp [mkEmbedding, List.getElem?_map, List.getElem?_range, hi]
    · simp [List.getElem?_map, List.getElem?_range, hj]

/-- C4 witness: `mkEmbedding` at `n = 2`, `d = 3`, padding index 1 and the
identity sample stream: 2 rows of width 3, padding kept, and entry `(1, 2)`
is draw number `1*3 + 2 = 5`. -/
theorem mkEmbedding_spec_witness :
    (mkEmbedding Nat 2 3 (some 1) (fun k => k)).numEmbeddings = 2 ∧
      (mkEmbedding Nat 2 3 (some 1) (fun k => k)).embeddingDim = 3 ∧
      (mkEmbedding Nat 2 3 (some 1) (fun k => k)).paddingIdx = some 1 ∧
      (mkEmbedding Nat 2 3 (some 1) (fun k => k)).weight.length = 2 ∧
      (∀ row ∈ (mkEmbedding Nat 2 3 (some 1) (fun k => k)).weight,
        row.length = 3) ∧
      (∃ row, (mkEmbedding Nat 2 3 (some 1) (fun k => k)).weight[1]? = some row ∧
        row[2]? = some 5) := by
  have h := mkEmbedding_spec Nat 2 3 (some 1) (fun k => k)
  exact ⟨h.1, h.2.1, h.2.2.1, h.2.2.2.1, h.2.2.2.2.1,
    h.2.2.2.2.2 1 2 (by decide) (by decide)⟩

/-- Splits a flat data list into consecutive pieces of `d` elements (the
feature rows of the appended last dimension); fuel-driven so it is total. -/
def chunksAux (α : Type) : Nat → Nat → List α → List (List α)
  | 0, _, _ => []
  | _ + 1, _, [] => []
  | fuel + 1, d, x :: xs => (x :: xs).take d :: chunksAux α fuel d ((x :: xs).drop d)

/-- All consecutive `d`-element pieces of a list. -/
def List.chunks (l : List α) (d : Nat) : List (List α) :=
  chunksAux α l.length d l

/-- Modelled from the spec: the notebook's single code cell.  It constructs
`nn.Embedding(num_embeddings=5, embedding_dim=32)` (Gaussian-initialized),
builds the `LongTensor [[0, 4], [2, 3], [0, 1]]`, performs the lookup, and
produces what the cell prints: the input shape, the output shape, and the
feature slice `embed_vectors[:, :, :2]`.  `none` models the external
library raising an exception. -/
def runCell (α : Type) (gaussianSample : Nat → α) :
    Option (List Nat × List Nat × List (List α)) :=
  let embedding := mkEmbedding α 5 32 none gaussianSample
  let inputTensor : Tensor Nat := { shape := [3, 2], data := [0, 4, 2, 3, 0, 1] }
  (embedding.forward inputTensor).map (fun embedVectors =>
    (inputTensor.shape, embedVectors.shape,
      (embedVectors.data.chunks 32).map (List.take 2)))

/-- C3: for every Gaussian draw, the notebook's code cell executes without
the external library raising an exception: the embedding is constructed,
the lookup succeeds, the printed input shape is `[3, 2]`, the printed
output shape is `[3, 2, 32]`, and the printed feature slice holds 3×2
rows of 2 features each. -/
theorem runCell_succeeds (α : Type) (gaussianSample : Nat → α) :
    ∃ r, runCell α gaussianSample = some r ∧ r.1 = [3, 2] ∧
      r.2.1 = [3, 2, 32] ∧ r.2.2.map List.length = [2, 2, 2, 2, 2, 2] :=
  ⟨_, rfl, rfl, rfl, rfl⟩

/-- Modelled from the spec: the devices a tensor of the external library
can live on (CPU, or the GPU via CUDA). -/
inductive Device where
  | cpu
  | cuda
deriving DecidableEq, Repr

/-- Modelled from the spec: element dtypes of the external library's
tensors (float for features/weights, long for integer indices). -/
inductive DType where
  | float
  | long
deriving DecidableEq, Repr

/-- Modelled from the spec: "a device/dtype tag attached to tensors that
must match across all operands of an operation". -/
structure Tag where
  device : Device
  dtype : DType
deriving DecidableEq, Repr

/-- Modelled from the spec: a tensor operand together with its
device/dtype tag. -/
structure TaggedTensor (α : Type) where
  tag : Tag
  data : List α
deriving DecidableEq, Repr

/-- Modelled from the spec: the runtime error symptoms the document
catalogs: graph-reuse-without-retention, shape/size mismatch, and device
mismatch between an input's and a weight's tags. -/
inductive RuntimeError where
  | graphReuse
  | sizeMismatch (got expected : Nat)
  | deviceMismatch (inputTag weightTag : Tag)
deriving DecidableEq, Repr

/-- Modelled from the spec: an operation over two tensor operands (such as
applying a module's weights to input data).  The operands' device/dtype
tags must match across all operands; otherwise the library fails with the
device-mismatch runtime error ("Input type ... and weight type ... should
be on the same device"). -/
def binOp (f : α → α → α) (x w : TaggedTensor α) :
    Except RuntimeError (TaggedTensor α) :=
  if x.tag = w.tag then
    .ok { tag := x.tag, data := (x.data.zip w.data).map (fun p => f p.1 p.2) }
  else
    .error (.deviceMismatch x.tag w.tag)

/-- C5: an operation over several tensor operands succeeds exactly when all
operands carry matching device/dtype tags, and differing tags (for example
input data on CPU, weights on GPU) fail with the device-mismatch runtime
error naming the two tags. -/
theorem binOp_tag_match {α : Type} (f : α → α → α) (x w : TaggedTensor α) :
    ((∃ r, binOp f x w = .ok r) ↔ x.tag = w.tag) ∧
      (x.tag ≠ w.tag → binOp f x w = .error (.deviceMismatch x.tag w.tag)) := by
  unfold binOp
  by_cases h : x.tag = w.tag
  · rw [if_pos h]
    refine ⟨Iff.intro (fun _ => h) (fun _ => ⟨_, rfl⟩), fun hne => absurd h hne⟩
  · rw [if_neg h]
    refine ⟨Iff.intro ?_ (fun heq => absurd heq h), fun _ => rfl⟩
    rintro ⟨r, hr⟩
    cases hr

/-- C5 witness: a float input on CPU against float weights on CUDA (the
notebook's `torch.FloatTensor` vs `torch.cuda.FloatTensor` example) fails
with the device-mismatch error, while matching tags succeed. -/
theorem binOp_tag_match_witness :
    binOp (fun a b : Nat => a + b)
        { tag := { device := Device.cpu, dtype := DType.float }, data := [1] }
        { tag := { device := Device.cuda, dtype := DType.float }, data := [2] }
      = Except.error (RuntimeError.deviceMismatch
          { device := Device.cpu, dtype := DType.float }
          { device := Device.cuda, dtype := DType.float }) ∧
      ∃ r, binOp (fun a b : Nat => a + b)
        { tag := { device := Device.cpu, dtype := DType.float }, data := [1] }
        { tag := { device := Device.cpu, dtype := DType.float }, data := [2] }
      = Except.ok r :=
  ⟨(binOp_tag_match _ _ _).2 (by decide), (binOp_tag_match _ _ _).1.mpr (by decide)⟩

/-- Modelled from the spec: the state of the autodiff computation graph of
a batch.  `retainGraph` is the `retain_graph` flag passed to the backward
call; `freed` records that a previous backward pass already released the
graph's buffers (as happens when a tensor from the previous batch's graph
is reused). -/
structure Graph where
  retainGraph : Bool
  freed : Bool
deriving DecidableEq, Repr

/-- Modelled from the spec: running a backward pass.  On a graph whose
buffers were already freed the library raises "Trying to backward through
the graph a second time, specify retain_graph=True"; otherwise the pass
succeeds and frees the graph unless `retain_graph` was set. -/
def Graph.backward (g : Graph) : Except RuntimeError Graph :=
  if g.freed then Except.error RuntimeError.graphReuse
  else Except.ok { g with freed := !g.retainGraph }

/-- C6: with `retain_graph` left false, a second backward pass through the
same graph raises the graph-reuse error, and a state whose graph has been
freed never permits a backward pass. -/
theorem backward_graph_reuse (g : Graph) (hretain : g.retainGraph = false)
    (hfresh : g.freed = false) :
    Except.bind g.backward Graph.backward
        = Except.error RuntimeError.graphReuse ∧
      ∀ g2 : Graph, g2.freed = true →
        g2.backward = Except.error RuntimeError.graphReuse := by
  have h1 : g.backward = Except.ok { g with freed := true } := by
    simp [Graph.backward, hfresh, hretain]
  constructor
  · rw [h1]
    simp [Except.bind, Graph.backward]
  · intro g2 h2
    simp [Graph.backward, h2]

/-- C6 witness: the fresh non-retaining graph; backward twice errors, and
freed graphs always error. -/
theorem backward_graph_reuse_witness :
    Except.bind (Graph.backward { retainGraph := false, freed := false })
        Graph.backward = Except.error RuntimeError.graphReuse ∧
      ∀ g2 : Graph, g2.freed = true →
        g2.backward = Except.error RuntimeError.graphReuse :=
  backward_graph_reuse { retainGraph := false, freed := false } rfl rfl

/-- Dot product of a weight row with an input feature row. -/
def dot [Mul α] [Add α] [Zero α] (w x : List α) : α :=
  (List.zipWith (fun a b => a * b) w x).sum

/-- Modelled from the spec: `nn.Linear(in_features, out_features)` with its
weight tensor of `out_features` rows of width `in_features`. -/
structure Linear (α : Type) where
  inFeatures : Nat
  outFeatures : Nat
  weight : List (List α)
deriving DecidableEq, Repr

/-- Modelled from the spec: applying a Linear module.  The trailing
dimension of the input must match the module's specified `in_features`;
otherwise the library raises a size-mismatch error.  On success every
feature row of the input is mapped through the weight matrix and the
trailing dimension becomes `out_features`. -/
def Linear.forward [Mul α] [Add α] [Zero α] (lin : Linear α) (t : Tensor α) :
    Except RuntimeError (Tensor α) :=
  match t.shape.getLast? with
  | none => Except.error (RuntimeError.sizeMismatch 0 lin.inFeatures)
  | some dIn =>
    if dIn = lin.inFeatures then
      Except.ok { shape := t.shape.dropLast ++ [lin.outFeatures]
                  data := (t.data.chunks lin.inFeatures).flatMap
                    (fun row => lin.weight.map (fun w => dot w row)) }
    else
      Except.error (RuntimeError.sizeMismatch dIn lin.inFeatures)

/-- C7: applying a Linear module to an input whose trailing dimension is
`dIn` succeeds exactly when `dIn` matches the module's `in_features`, and a
mismatch fails with the size-mismatch error naming the two dimensions. -/
theorem linear_forward_size (α : Type) [Mul α] [Add α] [Zero α]
    (lin : Linear α) (t : Tensor α) (dIn : Nat)
    (hlast : t.shape.getLast? = some dIn) :
    ((∃ out, lin.forward t = Except.ok out) ↔ dIn = lin.inFeatures) ∧
      (dIn ≠ lin.inFeatures →
        lin.forward t = Except.error (RuntimeError.sizeMismatch dIn lin.inFeatures)) := by
  unfold Linear.forward
  rw [hlast]
  dsimp only
  by_cases h : dIn = lin.inFeatures
  · rw [if_pos h]
    refine ⟨Iff.intro (fun _ => h) (fun _ => ⟨_, rfl⟩), fun hne => absurd h hne⟩
  · rw [if_neg h]
    refine ⟨Iff.intro ?_ (fun heq => absurd heq h), fun _ => rfl⟩
    rintro ⟨out, hout⟩
    cases hout

/-- C7 witness: a Linear module with `in_features = 3` applied to a batch
of two rows of width 4 fails with `sizeMismatch 4 3`, and applied to rows
of width 3 succeeds. -/
theorem linear_forward_size_witness :
    Linear.forward
        ({ inFeatures := 3, outFeatures := 2,
           weight := [[1, 1, 1], [0, 0, 0]] } : Linear Nat)
        ({ shape := [2, 4], data := [0, 1, 2, 3, 4, 5, 6, 7] } : Tensor Nat)
      = Except.error (RuntimeError.sizeMismatch 4 3) ∧
      ∃ out, Linear.forward
        ({ inFeatures := 3, outFeatures := 2,
           weight := [[1, 1, 1], [0, 0, 0]] } : Linear Nat)
        ({ shape := [2, 3], data := [0, 1, 2, 3, 4, 5] } : Tensor Nat)
      = Except.ok out :=
  ⟨(linear_forward_size Nat _ _ 4 (by decide)).2 (by decide),
    (linear_forward_size Nat _ _ 3 (by decide)).1.mpr (by decide)⟩

/-- Modelled from the spec: `nn.Softmax` over a logits vector — the
probability assigned to class `i`. -/
noncomputable def softmax (logits : List ℝ) (i : Nat) : ℝ :=
  Real.exp (logits.getD i 0) / (logits.map Real.exp).sum

/-- Modelled from the spec: `nn.LogSoftmax` over a logits vector. -/
noncomputable def logSoftmax (logits : List ℝ) (i : Nat) : ℝ :=
  logits.getD i 0 - Real.log (logits.map Real.exp).sum

/-- Modelled from the spec: `nn.NLLLoss` on log-probabilities — the
negated log-probability of the target class. -/
def nllLoss (logProbs : Nat → ℝ) (target : Nat) : ℝ :=
  -(logProbs target)

/-- Modelled from the spec: `nn.CrossEntropyLoss` on raw logits — the
negative log of the softmax probability of the target class. -/
noncomputable def crossEntropyLoss (logits : List ℝ) (target : Nat) : ℝ :=
  -(Real.log (softmax logits target))

/-- C9: for every logits vector and target, the cross-entropy loss equals
the negative-log-likelihood loss applied to the log-softmax of the logits
(`nn.CrossEntropyLoss` performs `nn.LogSoftmax` and `nn.NLLLoss`), so the
module is to be fed raw linear-layer outputs. -/
theorem crossEntropy_eq_nll_logSoftmax (logits : List ℝ) (target : Nat)
    (hne : logits ≠ []) :
    crossEntropyLoss logits target = nllLoss (logSoftmax logits) target := by
  have hpos : 0 < (logits.map Real.exp).sum := by
    apply List.sum_pos
    · intro x hx
      obtain ⟨y, _, rfl⟩ := List.mem_map.mp hx
      exact Real.exp_pos y
    · simpa using hne
  unfold crossEntropyLoss softmax nllLoss logSoftmax
  rw [Real.log_div (Real.exp_ne_zero _) (ne_of_gt hpos), Real.log_exp]

/-- C9 witness: the identity at the concrete logits vector `[1, 2]` and
target class 1. -/
theorem crossEntropy_eq_nll_logSoftmax_witness :
    crossEntropyLoss [1, 2] 1 = nllLoss (logSoftmax [1, 2]) 1 :=
  crossEntropy_eq_nll_logSoftmax [1, 2] 1 (by simp)

/-- Modelled from the spec: per-parameter optimizer state of Adam-family
optimizers — first and second gradient moments and the step count. -/
structure AdamState where
  m : ℝ
  v : ℝ
  step : Nat

/-- Modelled from the spec: the hyperparameters shared by `torch.optim.Adam`
and `torch.optim.AdamW`. -/
structure AdamHyper where
  lr : ℝ
  beta1 : ℝ
  beta2 : ℝ
  eps : ℝ
  weightDecay : ℝ

/-- Modelled from the spec: one `torch.optim.Adam` update of a single
parameter `p` with gradient `g`.  The weight decay "is usually added as
gradients before determining the adaptive learning rate": the decay term
enters the gradient, and is then scaled by the adaptive step size. -/
noncomputable def adamStep (h : AdamHyper) (p g : ℝ) (s : AdamState) :
    ℝ × AdamState :=
  let grad := g + h.weightDecay * p
  let t := s.step + 1
  let m := h.beta1 * s.m + (1 - h.beta1) * grad
  let v := h.beta2 * s.v + (1 - h.beta2) * grad ^ 2
  let mhat := m / (1 - h.beta1 ^ t)
  let vhat := v / (1 - h.beta2 ^ t)
  (p - h.lr * mhat / (Real.sqrt vhat + h.eps), { m := m, v := v, step := t })

/-- Modelled from the spec: one `torch.optim.AdamW` update — "identical to
`torch.optim.Adam` besides the weight decay implementation": the decay is
applied to the parameter directly, decoupled from the adaptive
learning-rate scaling, and the raw gradient feeds the moments. -/
noncomputable def adamwStep (h : AdamHyper) (p g : ℝ) (s : AdamState) :
    ℝ × AdamState :=
  let t := s.step + 1
  let m := h.beta1 * s.m + (1 - h.beta1) * g
  let v := h.beta2 * s.v + (1 - h.beta2) * g ^ 2
  let mhat := m / (1 - h.beta1 ^ t)
  let vhat := v / (1 - h.beta2 ^ t)
  (p - h.lr * h.weightDecay * p - h.lr * mhat / (Real.sqrt vhat + h.eps),
    { m := m, v := v, step := t })

/-- Running `torch.optim.Adam` over a sequence of gradients. -/
noncomputable def adamRun (h : AdamHyper) : ℝ × AdamState → List ℝ → ℝ × AdamState
  | ps, [] => ps
  | ps, g :: gs => adamRun h (adamStep h ps.1 g ps.2) gs

/-- Running `torch.optim.AdamW` over a sequence of gradients. -/
noncomputable def adamwRun (h : AdamHyper) : ℝ × AdamState → List ℝ → ℝ × AdamState
  | ps, [] => ps
  | ps, g :: gs => adamwRun h (adamwStep h ps.1 g ps.2) gs

lemma adamStep_eq_adamwStep_of_decay_zero (h : AdamHyper)
    (hwd : h.weightDecay = 0) (p g : ℝ) (s : AdamState) :
    adamStep h p g s = adamwStep h p g s := by
  unfold adamStep adamwStep
  simp [hwd]

/-- C10: with `weight_decay = 0` the Adam and AdamW optimizers produce the
same parameter and state trajectory on every gradient sequence, while at
nonzero weight decay they differ: Adam folds the decay into the gradient
before the adaptive scaling, AdamW applies it decoupled, and the two
updates disagree on a concrete parameter. -/
theorem adamw_eq_adam_iff_no_decay :
    (∀ (h : AdamHyper), h.weightDecay = 0 → ∀ (gs : List ℝ) (ps : ℝ × AdamState),
        adamRun h ps gs = adamwRun h ps gs) ∧
      adamStep { lr := 1, beta1 := 0, beta2 := 0, eps := 1, weightDecay := 1 }
          1 0 { m := 0, v := 0, step := 0 }
        ≠ adamwStep { lr := 1, beta1 := 0, beta2 := 0, eps := 1, weightDecay := 1 }
          1 0 { m := 0, v := 0, step := 0 } := by
  constructor
  · intro h hwd gs
    induction gs with
    | nil => intro ps; rfl
    | cons g gs ih =>
        intro ps
        simp only [adamRun, adamwRun, adamStep_eq_adamwStep_of_decay_zero h hwd]
        exact ih _
  · intro heq
    have h1 := congrArg Prod.fst heq
    simp only [adamStep, adamwStep] at h1
    norm_num [Real.sqrt_one, Real.sqrt_zero] at h1

/-- C10 witness: with `weight_decay = 0`, Adam and AdamW agree on the
gradient sequence `[1, 2]` from parameter 1 and fresh state. -/
theorem adamw_eq_adam_iff_no_decay_witness :
    adamRun { lr := 1, beta1 := 0, beta2 := 0, eps := 1, weightDecay := 0 }
        (1, { m := 0, v := 0, step := 0 }) [1, 2]
      = adamwRun { lr := 1, beta1 := 0, beta2 := 0, eps := 1, weightDecay := 0 }
        (1, { m := 0, v := 0, step := 0 }) [1, 2] :=
  adamw_eq_adam_iff_no_decay.1 _ rfl [1, 2] _
